import Mathlib

/-!
# Verification of the SENSEX prediction pipeline (`app.py`)

Shallow embedding of the feature-engineering and inference pipeline of the
repository's single source file `app.py`:

* raw provider tables are lists of `(column name, column of cells)` pairs,
  where a column name may be a plain string or a two-level (tuple) header,
  as returned by the market-data provider (lines 25, 31);
* column-name normalization mirrors lines 34-35
  (`col[0] if isinstance(col, tuple) else col`, then `str(col).strip().title()`);
* feature engineering mirrors lines 39-44 (pandas rolling means/std with
  `min_periods = window`, elementwise arithmetic with IEEE NaN/infinity
  semantics for division by zero);
* the missing-column check, `dropna(subset=features)`, the emptiness check
  and the latest-row selection mirror lines 54-67;
* the three model calls inside one `try`/`except` mirror lines 70-76;
* decoding of the direction and signal codes mirrors lines 80-82.

Cells are modelled exactly (rationals instead of floats, with explicit
NaN / +inf / -inf constructors, and a symbolic square-root constructor for
the rolling standard deviation so every definition stays computable).
-/

/-- A cell value of the pandas frame.  `fin q` is a finite float, `nan` is
IEEE NaN (pandas "missing"), `pinf`/`ninf` are the two infinities, and
`sqrtFin q` denotes the nonnegative real square root of `q` (`q ≥ 0`): the
rolling standard deviation is a float square root in the source; keeping it
symbolic keeps the embedding exact and computable.  A `sqrtFin` value is
produced only by the rolling-std column and never re-enters arithmetic. -/
inductive FVal where
  | fin (q : ℚ)
  | sqrtFin (q : ℚ)
  | pinf
  | ninf
  | nan
deriving DecidableEq, Repr

/-- pandas missing-value test (`NaN`); infinities are *not* missing. -/
def FVal.isNA : FVal → Bool
  | .nan => true
  | _ => false

/-- IEEE addition on cells (only `fin`/`nan`/`inf` operands arise in the
pipeline; the symbolic `sqrtFin` never enters arithmetic, that row is dead). -/
def FVal.add : FVal → FVal → FVal
  | .fin a, .fin b => .fin (a + b)
  | .fin _, .pinf => .pinf
  | .fin _, .ninf => .ninf
  | .pinf, .fin _ => .pinf
  | .ninf, .fin _ => .ninf
  | .pinf, .pinf => .pinf
  | .ninf, .ninf => .ninf
  | .pinf, .ninf => .nan
  | .ninf, .pinf => .nan
  | _, _ => .nan

/-- IEEE subtraction on cells. -/
def FVal.sub : FVal → FVal → FVal
  | .fin a, .fin b => .fin (a - b)
  | .fin _, .pinf => .ninf
  | .fin _, .ninf => .pinf
  | .pinf, .fin _ => .pinf
  | .ninf, .fin _ => .ninf
  | .pinf, .ninf => .pinf
  | .ninf, .pinf => .ninf
  | .pinf, .pinf => .nan
  | .ninf, .ninf => .nan
  | _, _ => .nan

/-- IEEE multiplication on cells. -/
def FVal.mul : FVal → FVal → FVal
  | .fin a, .fin b => .fin (a * b)
  | .fin a, .pinf => if 0 < a then .pinf else if a < 0 then .ninf else .nan
  | .fin a, .ninf => if 0 < a then .ninf else if a < 0 then .pinf else .nan
  | .pinf, .fin b => if 0 < b then .pinf else if b < 0 then .ninf else .nan
  | .ninf, .fin b => if 0 < b then .ninf else if b < 0 then .pinf else .nan
  | .pinf, .pinf => .pinf
  | .ninf, .ninf => .pinf
  | .pinf, .ninf => .ninf
  | .ninf, .pinf => .ninf
  | _, _ => .nan

/-- IEEE division on cells.  Division of a nonzero finite value by (positive)
zero yields a signed infinity, `0/0` yields NaN — exactly what numpy does on
line 42/44 when `Open` is `0`. -/
def FVal.div : FVal → FVal → FVal
  | .fin a, .fin b =>
      if b = 0 then (if 0 < a then .pinf else if a < 0 then .ninf else .nan)
      else .fin (a / b)
  | .fin _, .pinf => .fin 0
  | .fin _, .ninf => .fin 0
  | .pinf, .fin b => if 0 ≤ b then .pinf else .ninf
  | .ninf, .fin b => if 0 ≤ b then .ninf else .pinf
  | _, _ => .nan

/-- Trailing inclusive window of width `w` ending at index `i`
(the rows pandas aggregates for `rolling(window=w)` at row `i`). -/
def windowSlice (col : List α) (w i : ℕ) : List α :=
  (col.take (i + 1)).drop (i + 1 - w)

/-- Arithmetic mean of a list of rationals (the closed-form SMA statistic). -/
def specMean (xs : List ℚ) : ℚ := xs.sum / xs.length

/-- Closed-form sample variance (`ddof = 1`, as pandas `rolling(...).std()`
uses): `Σ (x - mean)² / (n - 1)`. -/
def sampleVar (xs : List ℚ) : ℚ :=
  if xs.length ≤ 1 then 0
  else ((xs.map (fun x => (x - specMean xs) ^ 2)).sum) / ((xs.length : ℚ) - 1)

/-- `True` iff every cell of the list is a finite float. -/
def allFin (xs : List FVal) : Bool :=
  xs.all fun v => match v with | .fin _ => true | _ => false

/-- The finite values of a list of cells. -/
def finVals (xs : List FVal) : List ℚ :=
  xs.filterMap fun v => match v with | .fin q => some q | _ => none

/-- One entry of pandas `col.rolling(window=w).mean()`: NaN until the window
is full (`min_periods` defaults to `window`), otherwise the mean of the
trailing window, with NaN/infinity propagating through the sum as in IEEE. -/
def rollingMeanAt (w : ℕ) (col : List FVal) (i : ℕ) : FVal :=
  if i + 1 < w then .nan
  else FVal.div ((windowSlice col w i).foldr FVal.add (.fin 0)) (.fin (w : ℚ))

/-- pandas `col.rolling(window=w).mean()` (lines 39-40). -/
def rollingMean (w : ℕ) (col : List FVal) : List FVal :=
  (List.range col.length).map (rollingMeanAt w col)

/-- One entry of pandas `col.rolling(window=w).std()`: NaN until the window
is full or when the window contains a non-finite cell, otherwise the sample
standard deviation — represented symbolically as `sqrtFin` of the sample
variance, since the square root of a rational is not rational. -/
def rollingStdAt (w : ℕ) (col : List FVal) (i : ℕ) : FVal :=
  if i + 1 < w then .nan
  else
    let ws := windowSlice col w i
    if allFin ws then .sqrtFin (sampleVar (finVals ws)) else .nan

/-- pandas `col.rolling(window=w).std()` (line 43). -/
def rollingStd (w : ℕ) (col : List FVal) : List FVal :=
  (List.range col.length).map (rollingStdAt w col)

/-- A raw (pre-normalization) column header: provider tables may carry a
two-level (`tuple`) header (line 34's `isinstance(col, tuple)` case). -/
inductive RawCol where
  | str (s : String)
  | tup (fst snd : String)
deriving DecidableEq, Repr

/-- Line 34: `col[0] if isinstance(col, tuple) else col`. -/
def flattenCol : RawCol → String
  | .str s => s
  | .tup a _ => a

/-- Whitespace for Python `str.strip()` (ASCII subset; all header text in
scope is ASCII). -/
def isPySpace (c : Char) : Bool :=
  c = ' ' || c = '\t' || c = '\n' || c = '\r'

/-- Python `str.strip()`. -/
def pyStrip (s : String) : String :=
  String.mk (((s.data.dropWhile isPySpace).reverse.dropWhile isPySpace).reverse)

/-- Worker for `pyTitle`: the boolean records whether the previous character
was alphabetic. -/
def titleGo : Bool → List Char → List Char
  | _, [] => []
  | prevAlpha, c :: rest =>
      (if c.isAlpha then (if prevAlpha then c.toLower else c.toUpper) else c)
        :: titleGo c.isAlpha rest

/-- Python `str.title()` (ASCII): the first letter of every maximal
alphabetic run is uppercased, the rest lowercased. -/
def pyTitle (s : String) : String := String.mk (titleGo false s.data)

/-- Line 34-35 applied to one header: flatten a tuple header, strip, title. -/
def normalizeName (c : RawCol) : String := pyTitle (pyStrip (flattenCol c))

/-- The pandas frame after header normalization: ordered association list of
column name to column of cells.  The `Date` index of the provider result is
already materialized as the `"Date"` column (`df.reset_index()`, line 31),
with dates encoded as finite ordinals. -/
abbrev DF := List (String × List FVal)

/-- `df[name]` as a total lookup: `none` models the `KeyError` raised by
pandas when the column is absent. -/
def getCol (df : DF) (name : String) : Option (List FVal) :=
  (df.find? (fun p => p.1 == name)).map (fun p => p.2)

/-- `df[name] = col`: replace the column if present, else append it. -/
def setCol (df : DF) (name : String) (col : List FVal) : DF :=
  if (df.find? (fun p => p.1 == name)).isSome then
    df.map (fun p => if p.1 == name then (name, col) else p)
  else df ++ [(name, col)]

/-- Number of rows of the (rectangular) frame. -/
def nrows (df : DF) : ℕ := (df.head?.map (fun p => p.2.length)).getD 0

/-- `df.columns`. -/
def colNames (df : DF) : List String := df.map (fun p => p.1)

/-- Cell of column `name` at row `i`. -/
def cellAt (df : DF) (name : String) (i : ℕ) : FVal :=
  ((getCol df name).getD []).getD i .nan

/-- Errors of the run, per the stage that raises them.  `keyError` models an
*uncaught* pandas `KeyError` (a raw traceback, not a classified
`st.error`/`st.stop`); the other four are the classified stops of lines
27-29, 54-57, 61-63 and 74-76. -/
inductive PipelineError where
  | providerError
  | keyError (col : String)
  | schemaError (missing : List String)
  | insufficientData
  | inferenceError (msg : String)
deriving DecidableEq, Repr

/-- Whether the error is surfaced as a classified `st.error` + `st.stop`
(an uncaught `KeyError` is not: it aborts with an unclassified traceback). -/
def PipelineError.isClassified : PipelineError → Bool
  | .keyError _ => false
  | _ => true

/-- Column lookup that raises (`df['name']`, `KeyError` when absent). -/
def getColE (df : DF) (name : String) : Except PipelineError (List FVal) :=
  match getCol df name with
  | some col => .ok col
  | none => .error (.keyError name)

/-- Line 42's derived column: `((df['Close'] - df['Open']) / df['Open']) * 100`. -/
def dailyChangeCol (closes opens : List FVal) : List FVal :=
  (List.zipWith FVal.div (List.zipWith FVal.sub closes opens) opens).map
    (fun v => FVal.mul v (.fin 100))

/-- Lines 39-44: the six derived columns, with a fresh lookup of the source
column for each line exactly as the source performs it.  A missing source
column raises an (uncaught) `KeyError` at the line that first touches it. -/
def featureEngineering (df : DF) : Except PipelineError DF := do
  let c ← getColE df "Close"
  let df := setCol df "Sma_5" (rollingMean 5 c)
  let c ← getColE df "Close"
  let df := setCol df "Sma_10" (rollingMean 10 c)
  let hi ← getColE df "High"
  let lo ← getColE df "Low"
  let df := setCol df "Price_Range" (List.zipWith FVal.sub hi lo)
  let c ← getColE df "Close"
  let o ← getColE df "Open"
  let df := setCol df "Daily_Change_%" (dailyChangeCol c o)
  let c ← getColE df "Close"
  let df := setCol df "Rolling_Std_5" (rollingStd 5 c)
  let c ← getColE df "Close"
  let o ← getColE df "Open"
  return setCol df "Close/Open" (List.zipWith FVal.div c o)

/-- Lines 47-51: the fixed, ordered feature list fed to every model. -/
def features : List String :=
  ["Open", "High", "Low", "Volume",
   "Sma_5", "Sma_10", "Price_Range",
   "Daily_Change_%", "Rolling_Std_5", "Close/Open"]

/-- Row `i` has a missing (NaN) value in some column of `subset`
(the per-row test of `df.dropna(subset=features)`, line 59). -/
def rowHasNA (df : DF) (subset : List String) (i : ℕ) : Bool :=
  subset.any fun name =>
    match getCol df name with
    | some col => (col.getD i .nan).isNA
    | none => false

/-- The row indices `dropna` keeps, in order. -/
def keptIdx (df : DF) (subset : List String) : List ℕ :=
  (List.range (nrows df)).filter (fun i => ! rowHasNA df subset i)

/-- `df.dropna(subset=subset)` (line 59). -/
def dropnaDF (df : DF) (subset : List String) : DF :=
  df.map (fun p => (p.1, (keptIdx df subset).map (fun i => p.2.getD i .nan)))

/-- Line 66: `df[features].iloc[-1]` — the last row of the feature columns,
in the fixed `features` order. -/
def latestInputOf (df : DF) : List FVal :=
  features.map (fun name => cellAt df name (nrows df - 1))

/-- Lines 54-67 (Row Selector): missing-column check, `dropna`, emptiness
check, then the latest feature row and its date. -/
def selectLatest (df : DF) : Except PipelineError (List FVal × FVal) :=
  if (features.filter (fun c => ! ((colNames df).contains c))).isEmpty then
    if nrows (dropnaDF df features) = 0 then .error .insufficientData
    else
      match getCol (dropnaDF df features) "Date" with
      | none => .error (.keyError "Date")
      | some ds =>
          .ok (latestInputOf (dropnaDF df features),
               ds.getD (nrows (dropnaDF df features) - 1) .nan)
  else .error (.schemaError (features.filter (fun c => ! ((colNames df).contains c))))

/-- The three opaque models.  Each consumes the fixed-order numeric vector
and either returns its prediction or raises (the `Except.error` message is
the Python exception text). -/
structure Models where
  reg : List FVal → Except String ℚ
  clf : List FVal → Except String ℤ
  sig : List FVal → Except String ℤ

/-- Lines 70-76: the three `predict` calls inside a single `try`; the first
exception aborts the whole step as an `InferenceError`. -/
def runModels (m : Models) (v : List FVal) : Except PipelineError (ℚ × ℤ × ℤ) :=
  match m.reg v with
  | .error e => .error (.inferenceError e)
  | .ok c =>
    match m.clf v with
    | .error e => .error (.inferenceError e)
    | .ok d =>
      match m.sig v with
      | .error e => .error (.inferenceError e)
      | .ok s => .ok (c, d, s)

/-- Line 80: `"📈 Up" if pred_direction == 1 else "📉 Down"`. -/
def directionText (d : ℤ) : String := if d = 1 then "📈 Up" else "📉 Down"

/-- Line 81: the signal dictionary. -/
def signalMap : List (ℤ × String) := [(0, "🔻 SELL"), (1, "⏸ HOLD"), (2, "🔺 BUY")]

/-- Line 82: `signal_map.get(pred_signal, "Unknown")`. -/
def signalText (s : ℤ) : String :=
  ((signalMap.find? (fun p => p.1 == s)).map (fun p => p.2)).getD "Unknown"

/-- What the run delivers to the presentation layer. -/
structure Output where
  latestDate : FVal
  latestInput : List FVal
  predClose : ℚ
  directionLabel : String
  signalLabel : String
deriving DecidableEq, Repr

/-- Decode step (lines 80-82) packaged with the data already selected. -/
def decodeStep (v : List FVal) (dt : FVal) (p : ℚ × ℤ × ℤ) : Output :=
  { latestDate := dt, latestInput := v, predClose := p.1,
    directionLabel := directionText p.2.1, signalLabel := signalText p.2.2 }

/-- Row count of the raw (pre-normalization) provider table, for the
`df.empty` check of line 27. -/
def rawNrows (raw : List (RawCol × List FVal)) : ℕ :=
  ((raw.head?).map (fun p => p.2.length)).getD 0

/-- Lines 34-35 applied to the whole table. -/
def normalizeDF (raw : List (RawCol × List FVal)) : DF :=
  raw.map (fun p => (normalizeName p.1, p.2))

/-- Inference plus decoding, applied to the Row Selector's result: a selector
error aborts the run, otherwise the three models run on the selected vector
and the raw predictions are decoded. -/
def pipelineTail (m : Models) (r : Except PipelineError (List FVal × FVal)) :
    Except PipelineError Output :=
  match r with
  | .error e => .error e
  | .ok (v, dt) => (runModels m v).map (decodeStep v dt)

/-- Row selection onward, applied to the Feature Engine's result: an
(uncaught) feature-engineering error aborts the run. -/
def afterFE (m : Models) (r : Except PipelineError DF) : Except PipelineError Output :=
  match r with
  | .error e => .error e
  | .ok df => pipelineTail m (selectLatest df)

/-- The whole run on a fetched table (lines 27-82): emptiness check, header
normalization, feature engineering, row selection, inference, decoding. -/
def pipeline (m : Models) (raw : List (RawCol × List FVal)) : Except PipelineError Output :=
  if rawNrows raw = 0 then .error .providerError
  else afterFE m (featureEngineering (normalizeDF raw))

/-! ## Concrete tables and models used as inputs of witnesses and
counterexamples -/

/-- A normalized canonical frame, as the provider delivers it after
`reset_index` and header normalization. -/
def canonDF (dates opens highs lows closes vols : List FVal) : DF :=
  [("Date", dates), ("Open", opens), ("High", highs),
   ("Low", lows), ("Close", closes), ("Volume", vols)]

/-- The frame `featureEngineering` produces from a canonical frame. -/
def feDF (dates opens highs lows closes vols : List FVal) : DF :=
  [("Date", dates), ("Open", opens), ("High", highs),
   ("Low", lows), ("Close", closes), ("Volume", vols),
   ("Sma_5", rollingMean 5 closes), ("Sma_10", rollingMean 10 closes),
   ("Price_Range", List.zipWith FVal.sub highs lows),
   ("Daily_Change_%", dailyChangeCol closes opens),
   ("Rolling_Std_5", rollingStd 5 closes),
   ("Close/Open", List.zipWith FVal.div closes opens)]

/-- A raw provider table with plain canonical headers, built from rational
(finite, non-missing) columns. -/
def mkRawQ (dq oq hq lq cq vq : List ℚ) : List (RawCol × List FVal) :=
  [(.str "Date", dq.map .fin), (.str "Open", oq.map .fin),
   (.str "High", hq.map .fin), (.str "Low", lq.map .fin),
   (.str "Close", cq.map .fin), (.str "Volume", vq.map .fin)]

/-- A 10-trading-day table on which every stage succeeds. -/
def goodRaw : List (RawCol × List FVal) :=
  mkRawQ [0, 1, 2, 3, 4, 5, 6, 7, 8, 9]
         [1, 1, 1, 1, 1, 1, 1, 1, 1, 1]
         [2, 2, 2, 2, 2, 2, 2, 2, 2, 2]
         [1, 1, 1, 1, 1, 1, 1, 1, 1, 1]
         [1, 2, 3, 4, 5, 6, 7, 8, 9, 10]
         [1, 1, 1, 1, 1, 1, 1, 1, 1, 1]

/-- The same 10-day data under two-level provider headers with arbitrary
casing and padding (the shape `yfinance` actually returns). -/
def goodRawTup : List (RawCol × List FVal) :=
  [(.tup " date" "^BSESN", ([0, 1, 2, 3, 4, 5, 6, 7, 8, 9] : List ℚ).map .fin),
   (.tup "OPEN" "^BSESN", (List.replicate 10 (1 : ℚ)).map .fin),
   (.tup "high " "^BSESN", (List.replicate 10 (2 : ℚ)).map .fin),
   (.tup "Low" "^BSESN", (List.replicate 10 (1 : ℚ)).map .fin),
   (.tup "cLoSe" "^BSESN", ([1, 2, 3, 4, 5, 6, 7, 8, 9, 10] : List ℚ).map .fin),
   (.tup "volume" "^BSESN", (List.replicate 10 (1 : ℚ)).map .fin)]

/-- Ten rows whose last row has `Open = 0` and `Close = c`: the only row
whose rolling windows are full is the last one. -/
def zeroOpenRaw (c : ℚ) : List (RawCol × List FVal) :=
  mkRawQ [0, 1, 2, 3, 4, 5, 6, 7, 8, 9]
         [1, 1, 1, 1, 1, 1, 1, 1, 1, 0]
         [2, 2, 2, 2, 2, 2, 2, 2, 2, 2]
         [1, 1, 1, 1, 1, 1, 1, 1, 1, 1]
         [1, 1, 1, 1, 1, 1, 1, 1, 1, c]
         [1, 1, 1, 1, 1, 1, 1, 1, 1, 1]

/-- An empty fetch result (zero rows). -/
def emptyRaw : List (RawCol × List FVal) := mkRawQ [] [] [] [] [] []

/-- Nine rows: too short for the 10-row rolling window, every row dropped. -/
def shortRaw : List (RawCol × List FVal) :=
  mkRawQ [0, 1, 2, 3, 4, 5, 6, 7, 8]
         [1, 1, 1, 1, 1, 1, 1, 1, 1]
         [2, 2, 2, 2, 2, 2, 2, 2, 2]
         [1, 1, 1, 1, 1, 1, 1, 1, 1]
         [1, 2, 3, 4, 5, 6, 7, 8, 9]
         [1, 1, 1, 1, 1, 1, 1, 1, 1]

/-- A one-row table lacking the `Close` column. -/
def noCloseRaw : List (RawCol × List FVal) :=
  [(.str "Date", [.fin 0]), (.str "Open", [.fin 1]), (.str "High", [.fin 2]),
   (.str "Low", [.fin 1]), (.str "Volume", [.fin 1])]

/-- A one-row table lacking the `Volume` column. -/
def noVolRaw : List (RawCol × List FVal) :=
  [(.str "Date", [.fin 0]), (.str "Open", [.fin 1]), (.str "High", [.fin 2]),
   (.str "Low", [.fin 1]), (.str "Close", [.fin 1])]

/-- Constant models: always succeed with the given prediction codes. -/
def mkModels (q : ℚ) (d s : ℤ) : Models :=
  ⟨fun _ => .ok q, fun _ => .ok d, fun _ => .ok s⟩

/-- All-good reference models. -/
def mdlOk : Models := mkModels 100 1 1

/-- Models whose regressor raises at inference time. -/
def mdlFailReg : Models :=
  ⟨fun _ => .error "boom", fun _ => .ok 1, fun _ => .ok 1⟩

/-- The feature-engineered frame of a canonical all-finite table. -/
def feDFQ (dq oq hq lq cq vq : List ℚ) : DF :=
  feDF (dq.map .fin) (oq.map .fin) (hq.map .fin) (lq.map .fin)
    (cq.map .fin) (vq.map .fin)

/-- A small three-row feature frame whose last row misses `Sma_10`
(used by the selection witness). -/
def c4DF : DF :=
  [("Date", ([0, 1, 2] : List ℚ).map .fin),
   ("Open", ([1, 1, 1] : List ℚ).map .fin),
   ("High", ([1, 1, 1] : List ℚ).map .fin),
   ("Low", ([1, 1, 1] : List ℚ).map .fin),
   ("Volume", ([1, 1, 1] : List ℚ).map .fin),
   ("Sma_5", ([1, 1, 1] : List ℚ).map .fin),
   ("Sma_10", [.fin 1, .fin 1, .nan]),
   ("Price_Range", ([1, 1, 1] : List ℚ).map .fin),
   ("Daily_Change_%", ([1, 1, 1] : List ℚ).map .fin),
   ("Rolling_Std_5", ([1, 1, 1] : List ℚ).map .fin),
   ("Close/Open", ([1, 1, 1] : List ℚ).map .fin)]

deriving instance DecidableEq for Except

/-- The (successful) output of the reference run, used by witnesses. -/
def goodOut : Output :=
  match pipeline mdlOk goodRaw with
  | .ok o => o
  | .error _ => ⟨.nan, [], 0, "", ""⟩

/-! ## Helper lemmas about the cell arithmetic and rolling windows -/

theorem foldr_add_map_fin (l : List ℚ) :
    (l.map FVal.fin).foldr FVal.add (.fin 0) = .fin l.sum := by
  induction l with
  | nil => simp [FVal.add]
  | cons a l ih => simp [FVal.add, ih]

theorem allFin_map_fin (l : List ℚ) : allFin (l.map .fin) = true := by
  simp [allFin, List.all_map, Function.comp_def]

theorem finVals_map_fin (l : List ℚ) : finVals (l.map .fin) = l := by
  induction l with
  | nil => rfl
  | cons a l ih => simpa [finVals] using ih

theorem windowSlice_map (f : α → β) (l : List α) (w i : ℕ) :
    windowSlice (l.map f) w i = (windowSlice l w i).map f := by
  simp [windowSlice, List.map_take, List.map_drop]

theorem length_windowSlice (l : List α) (w i : ℕ) (h1 : w ≤ i + 1) (h2 : i < l.length) :
    (windowSlice l w i).length = w := by
  simp only [windowSlice, List.length_drop, List.length_take]
  omega

theorem rollingMeanAt_lt (w : ℕ) (col : List FVal) (i : ℕ) (h : i + 1 < w) :
    rollingMeanAt w col i = .nan := by
  simp [rollingMeanAt, h]

theorem rollingStdAt_lt (w : ℕ) (col : List FVal) (i : ℕ) (h : i + 1 < w) :
    rollingStdAt w col i = .nan := by
  simp [rollingStdAt, h]

theorem rollingMeanAt_map_fin (w : ℕ) (hw : w ≠ 0) (l : List ℚ) (i : ℕ)
    (h1 : w ≤ i + 1) (h2 : i < l.length) :
    rollingMeanAt w (l.map .fin) i = .fin (specMean (windowSlice l w i)) := by
  have hlt : ¬ (i + 1 < w) := by omega
  have hlen : (windowSlice l w i).length = w := length_windowSlice l w i h1 h2
  rw [rollingMeanAt, if_neg hlt, windowSlice_map, foldr_add_map_fin]
  have hwq : ((w : ℚ)) ≠ 0 := by exact_mod_cast hw
  simp [FVal.div, hwq, specMean, hlen]

theorem rollingStdAt_map_fin (w : ℕ) (l : List ℚ) (i : ℕ) (h1 : w ≤ i + 1) :
    rollingStdAt w (l.map .fin) i = .sqrtFin (sampleVar (windowSlice l w i)) := by
  have hlt : ¬ (i + 1 < w) := by omega
  simp [rollingStdAt, hlt, windowSlice_map, allFin_map_fin, finVals_map_fin]

theorem getD_rollingMean (w : ℕ) (col : List FVal) (i : ℕ) (h : i < col.length) :
    (rollingMean w col).getD i .nan = rollingMeanAt w col i := by
  rw [rollingMean, List.getD_eq_getElem _ _ (by simpa using h)]
  simp

theorem getD_rollingStd (w : ℕ) (col : List FVal) (i : ℕ) (h : i < col.length) :
    (rollingStd w col).getD i .nan = rollingStdAt w col i := by
  rw [rollingStd, List.getD_eq_getElem _ _ (by simpa using h)]
  simp

theorem getD_map_fin (l : List ℚ) (i : ℕ) (h : i < l.length) :
    (l.map FVal.fin).getD i .nan = .fin (l.getD i 0) := by
  rw [List.getD_eq_getElem _ _ (by simpa using h), List.getD_eq_getElem _ _ h]
  simp

theorem getD_zipWith_map_fin (f : FVal → FVal → FVal) (a b : List ℚ) (i : ℕ)
    (ha : i < a.length) (hb : i < b.length) :
    (List.zipWith f (a.map .fin) (b.map .fin)).getD i .nan =
      f (.fin (a.getD i 0)) (.fin (b.getD i 0)) := by
  rw [List.getD_eq_getElem _ _ (by simp; omega)]
  rw [List.getD_eq_getElem _ _ ha, List.getD_eq_getElem _ _ hb]
  simp [List.getElem_zipWith]

/-! ## Helper lemmas about the frame operations and pipeline stages -/

theorem getCol_dropna (df : DF) (subset : List String) (nm : String) :
    getCol (dropnaDF df subset) nm =
      (getCol df nm).map (fun col => (keptIdx df subset).map (fun i => col.getD i .nan)) := by
  simp [getCol, dropnaDF, List.find?_map, Option.map_map, Function.comp_def]

theorem nrows_dropna (df : DF) (subset : List String) (hdf : df ≠ []) :
    nrows (dropnaDF df subset) = (keptIdx df subset).length := by
  cases df with
  | nil => exact absurd rfl hdf
  | cons p t => simp [nrows, dropnaDF]

theorem contains_iff_mem (l : List String) (a : String) : l.contains a = true ↔ a ∈ l := by
  simp

theorem getCol_some_of_mem (df : DF) (nm : String)
    (h : nm ∈ colNames df) : ∃ col, getCol df nm = some col := by
  induction df with
  | nil => simp [colNames] at h
  | cons p t ih =>
    rcases (by simpa [colNames] using h : nm = p.1 ∨ nm ∈ colNames t) with h1 | h1
    · exact ⟨p.2, by simp [getCol, List.find?_cons, h1]⟩
    · by_cases he : p.1 == nm
      · exact ⟨p.2, by simp [getCol, List.find?_cons, he]⟩
      · obtain ⟨col, hcol⟩ := ih h1
        refine ⟨col, ?_⟩
        simp only [getCol, List.find?_cons] at hcol ⊢
        rw [show (p.1 == nm) = false from by simpa using he]
        exact hcol

theorem all_mem_of_filter_nil (df : DF)
    (hmiss : (features.filter (fun c => ! ((colNames df).contains c))) = []) :
    ∀ c ∈ features, c ∈ colNames df := by
  intro c hc
  have h2 := List.filter_eq_nil_iff.1 hmiss c hc
  simpa using h2

theorem keptIdx_pairwise (df : DF) (subset : List String) :
    (keptIdx df subset).Pairwise (· < ·) :=
  List.Pairwise.sublist (List.filter_sublist _) (List.pairwise_lt_range _)

theorem mem_keptIdx_iff (df : DF) (subset : List String) (i : ℕ) :
    i ∈ keptIdx df subset ↔ i < nrows df ∧ rowHasNA df subset i = false := by
  simp [keptIdx, List.mem_filter, List.mem_range]

theorem le_last_of_pairwise_lt (l : List ℕ) (h : l.Pairwise (· < ·))
    (hne : l.length ≠ 0) (i : ℕ) (hi : i ∈ l) : i ≤ l.getD (l.length - 1) 0 := by
  have hpos : 0 < l.length := Nat.pos_of_ne_zero hne
  obtain ⟨j, hj, hji⟩ := List.mem_iff_getElem.1 hi
  rw [List.getD_eq_getElem _ _ (by omega)]
  rcases Nat.lt_or_ge j (l.length - 1) with hlt | hge
  · exact Nat.le_of_lt (hji ▸ List.pairwise_iff_getElem.1 h j (l.length - 1) hj (by omega) hlt)
  · have hj2 : j = l.length - 1 := by omega
    subst hj2
    exact Nat.le_of_eq hji.symm

theorem getD_last_mem (l : List ℕ) (hne : l.length ≠ 0) : l.getD (l.length - 1) 0 ∈ l := by
  have hpos : 0 < l.length := Nat.pos_of_ne_zero hne
  rw [List.getD_eq_getElem _ _ (by omega)]
  exact List.getElem_mem _

theorem length_latestInputOf (df : DF) : (latestInputOf df).length = 10 := by
  simp [latestInputOf, features]

theorem selectLatest_insufficient (df : DF)
    (hall : ∀ c ∈ features, c ∈ colNames df)
    (hdrop : nrows (dropnaDF df features) = 0) :
    selectLatest df = .error .insufficientData := by
  simp [selectLatest, hdrop]
  intro c hc
  exact hall c hc

theorem selectLatest_ok_eq (df : DF)
    (hall : ∀ c ∈ features, c ∈ colNames df)
    (hdrop : nrows (dropnaDF df features) ≠ 0)
    (ds : List FVal) (hds : getCol (dropnaDF df features) "Date" = some ds) :
    selectLatest df =
      .ok (latestInputOf (dropnaDF df features),
           ds.getD (nrows (dropnaDF df features) - 1) .nan) := by
  rw [selectLatest, if_pos (by simpa [List.filter_eq_nil_iff] using hall), if_neg hdrop, hds]

theorem selectLatest_ok_inv (df : DF) (v : List FVal) (dt : FVal)
    (h : selectLatest df = .ok (v, dt)) :
    v = latestInputOf (dropnaDF df features) ∧ nrows (dropnaDF df features) ≠ 0 := by
  unfold selectLatest at h
  split at h
  · split at h
    · exact Except.noConfusion h
    · split at h
      · exact Except.noConfusion h
      · next hnz heq =>
        injection h with h2
        injection h2 with h3 h4
        exact ⟨h3.symm, by assumption⟩
  · exact Except.noConfusion h

theorem runModels_err_reg (m : Models) (v : List FVal) (e : String)
    (h : m.reg v = .error e) : runModels m v = .error (.inferenceError e) := by
  simp [runModels, h]

theorem runModels_err_clf (m : Models) (v : List FVal) (q : ℚ) (e : String)
    (h1 : m.reg v = .ok q) (h : m.clf v = .error e) :
    runModels m v = .error (.inferenceError e) := by
  simp [runModels, h1, h]

theorem runModels_err_sig (m : Models) (v : List FVal) (q : ℚ) (d : ℤ) (e : String)
    (h1 : m.reg v = .ok q) (h2 : m.clf v = .ok d) (h : m.sig v = .error e) :
    runModels m v = .error (.inferenceError e) := by
  simp [runModels, h1, h2, h]

theorem runModels_ok_inv (m : Models) (v : List FVal) (p : ℚ × ℤ × ℤ)
    (h : runModels m v = .ok p) :
    m.reg v = .ok p.1 ∧ m.clf v = .ok p.2.1 ∧ m.sig v = .ok p.2.2 := by
  unfold runModels at h
  split at h
  · exact Except.noConfusion h
  · split at h
    · exact Except.noConfusion h
    · split at h
      · exact Except.noConfusion h
      · injection h with h2
        subst h2
        exact ⟨by assumption, by assumption, by assumption⟩

theorem except_map_ok_inv (f : α → β) (r : Except ε α) (b : β)
    (h : r.map f = .ok b) : ∃ a, r = .ok a ∧ b = f a := by
  cases r with
  | error e => exact Except.noConfusion h
  | ok a => exact ⟨a, rfl, (Except.ok.inj h).symm⟩

theorem pipeline_eq_of_stages (m : Models) (raw : List (RawCol × List FVal)) (df : DF)
    (v : List FVal) (dt : FVal) (h0 : ¬ (rawNrows raw = 0))
    (hfe : featureEngineering (normalizeDF raw) = .ok df)
    (hsel : selectLatest df = .ok (v, dt)) :
    pipeline m raw = (runModels m v).map (decodeStep v dt) := by
  rw [pipeline, if_neg h0, hfe]
  simp [afterFE, hsel, pipelineTail]

theorem pipeline_err_of_select (m : Models) (raw : List (RawCol × List FVal)) (df : DF)
    (e : PipelineError) (h0 : ¬ (rawNrows raw = 0))
    (hfe : featureEngineering (normalizeDF raw) = .ok df)
    (hsel : selectLatest df = .error e) : pipeline m raw = .error e := by
  rw [pipeline, if_neg h0, hfe]
  simp [afterFE, hsel, pipelineTail]

theorem pipeline_ok_inv (m : Models) (raw : List (RawCol × List FVal)) (out : Output)
    (h : pipeline m raw = .ok out) :
    ∃ df dt p, featureEngineering (normalizeDF raw) = .ok df ∧
      selectLatest df = .ok (out.latestInput, dt) ∧
      runModels m out.latestInput = .ok p ∧ out = decodeStep out.latestInput dt p := by
  rw [pipeline] at h
  split at h
  · exact Except.noConfusion h
  · unfold afterFE at h
    split at h
    · exact Except.noConfusion h
    · next df hfe =>
      unfold pipelineTail at h
      split at h
      · exact Except.noConfusion h
      · next v dt hsel =>
        obtain ⟨p, hp, hout⟩ := except_map_ok_inv _ _ _ h
        have hv : out.latestInput = v := by rw [hout]; rfl
        refine ⟨df, dt, p, hfe, ?_, ?_, ?_⟩
        · rw [hv]; exact hsel
        · rw [hv]; exact hp
        · rw [hout]
          rfl

theorem featureEngineering_canonDF (d o hi lo c v : List FVal) :
    featureEngineering (canonDF d o hi lo c v) = .ok (feDF d o hi lo c v) := rfl

theorem normalizeDF_mkRawQ (dq oq hq lq cq vq : List ℚ) :
    normalizeDF (mkRawQ dq oq hq lq cq vq) =
      canonDF (dq.map .fin) (oq.map .fin) (hq.map .fin) (lq.map .fin)
        (cq.map .fin) (vq.map .fin) := rfl

theorem filter_range_ge (k n : ℕ) :
    (List.range n).filter (fun i => decide (k ≤ i)) = List.range' k (n - k) := by
  induction n with
  | zero => simp
  | succ n ih =>
    by_cases hkn : k ≤ n
    · rw [List.range_succ, List.filter_append, ih]
      have h1 : (n + 1) - k = (n - k) + 1 := by omega
      rw [h1, List.range'_concat, show k + 1 * (n - k) = n from by omega]
      congr 1
      simp [hkn]
    · have h0 : (n + 1) - k = 0 := by omega
      rw [h0]
      simp only [List.range'_zero]
      refine List.filter_eq_nil_iff.2 ?_
      intro a ha
      rw [List.mem_range] at ha
      simp only [decide_eq_true_eq]
      omega

/-! ## Claim theorems -/

/-- C1 counterexample: the claim says *all* rolling-window fields are
undefined for every row at position `i < 9`; but on a concrete 10-row
series with closes 1..10 the feature engine defines `Sma_5` already at
position 4 (mean of the first five closes, `3`), which is not missing. -/
theorem C1_counterexample :
    (featureEngineering (normalizeDF goodRaw)).map (fun d => cellAt d "Sma_5" 4) =
      .ok (.fin 3) ∧
    (FVal.fin 3).isNA = false :=
  ⟨by with_unfolding_all rfl, rfl⟩

/-- C1 (amended): the feature engine computes `Sma_5`, `Sma_10` and
`Rolling_Std_5` as trailing-window statistics of `Close`; for a series
whose closes are all present, the window-5 fields (`sma_5`,
`rolling_std_5`) are undefined exactly for `i < 4` and the window-10 field
(`sma_10`) exactly for `i < 9`; where defined, `sma_5`/`sma_10` equal the
arithmetic mean of the trailing 5/10 closes (`specMean`) and
`rolling_std_5` equals the sample standard deviation of the trailing 5
closes (the square root, `sqrtFin`, of the closed-form sample variance
`sampleVar`). -/
theorem C1_rolling_window_definedness (dates opens highs lows vols : List FVal)
    (closes : List ℚ) (i : ℕ) (hi : i < closes.length) :
    featureEngineering (canonDF dates opens highs lows (closes.map .fin) vols) =
      .ok (feDF dates opens highs lows (closes.map .fin) vols) ∧
    getCol (feDF dates opens highs lows (closes.map .fin) vols) "Sma_5" =
      some (rollingMean 5 (closes.map .fin)) ∧
    getCol (feDF dates opens highs lows (closes.map .fin) vols) "Sma_10" =
      some (rollingMean 10 (closes.map .fin)) ∧
    getCol (feDF dates opens highs lows (closes.map .fin) vols) "Rolling_Std_5" =
      some (rollingStd 5 (closes.map .fin)) ∧
    (i < 4 → (rollingMean 5 (closes.map .fin)).getD i .nan = .nan ∧
             (rollingStd 5 (closes.map .fin)).getD i .nan = .nan) ∧
    (i < 9 → (rollingMean 10 (closes.map .fin)).getD i .nan = .nan) ∧
    (4 ≤ i → (rollingMean 5 (closes.map .fin)).getD i .nan =
               .fin (specMean (windowSlice closes 5 i)) ∧
             (rollingStd 5 (closes.map .fin)).getD i .nan =
               .sqrtFin (sampleVar (windowSlice closes 5 i))) ∧
    (9 ≤ i → (rollingMean 10 (closes.map .fin)).getD i .nan =
               .fin (specMean (windowSlice closes 10 i))) := by
  have hlen : i < (closes.map FVal.fin).length := by simpa using hi
  refine ⟨featureEngineering_canonDF _ _ _ _ _ _, rfl, rfl, rfl, ?_, ?_, ?_, ?_⟩
  · intro h4
    rw [getD_rollingMean _ _ _ hlen, getD_rollingStd _ _ _ hlen]
    exact ⟨rollingMeanAt_lt _ _ _ (by omega), rollingStdAt_lt _ _ _ (by omega)⟩
  · intro h9
    rw [getD_rollingMean _ _ _ hlen]
    exact rollingMeanAt_lt _ _ _ (by omega)
  · intro h4
    rw [getD_rollingMean _ _ _ hlen, getD_rollingStd _ _ _ hlen]
    exact ⟨rollingMeanAt_map_fin 5 (by omega) closes i (by omega) hi,
           rollingStdAt_map_fin 5 closes i (by omega)⟩
  · intro h9
    rw [getD_rollingMean _ _ _ hlen]
    exact rollingMeanAt_map_fin 10 (by omega) closes i (by omega) hi

/-- C1 witness: on closes 1..10 at position 9, the window-5 statistics are
defined and evaluate to mean 8 and sample variance 5/2 over [6..10]. -/
theorem C1_rolling_window_definedness_witness :
    9 < ([1, 2, 3, 4, 5, 6, 7, 8, 9, 10] : List ℚ).length ∧
    ((rollingMean 5 (([1, 2, 3, 4, 5, 6, 7, 8, 9, 10] : List ℚ).map .fin)).getD 9 .nan =
        .fin (specMean (windowSlice ([1, 2, 3, 4, 5, 6, 7, 8, 9, 10] : List ℚ) 5 9)) ∧
     (rollingStd 5 (([1, 2, 3, 4, 5, 6, 7, 8, 9, 10] : List ℚ).map .fin)).getD 9 .nan =
        .sqrtFin (sampleVar (windowSlice ([1, 2, 3, 4, 5, 6, 7, 8, 9, 10] : List ℚ) 5 9))) ∧
    specMean (windowSlice ([1, 2, 3, 4, 5, 6, 7, 8, 9, 10] : List ℚ) 5 9) = 8 ∧
    sampleVar (windowSlice ([1, 2, 3, 4, 5, 6, 7, 8, 9, 10] : List ℚ) 5 9) = 5 / 2 :=
  ⟨by decide,
   (C1_rolling_window_definedness [] [] [] [] [] [1, 2, 3, 4, 5, 6, 7, 8, 9, 10] 9
      (by decide)).2.2.2.2.2.2.1 (by decide),
   by with_unfolding_all rfl, by with_unfolding_all rfl⟩

/-- C2 counterexample: the claim says an unrecognized direction code such
as 7 fails with a `DecodeError`; in the code `pred_direction == 1` is the
only test, so code 7 silently decodes to the "Down" label and the run
succeeds. -/
theorem C2_counterexample :
    (pipeline (mkModels 100 7 1) goodRaw).map Output.directionLabel = .ok "📉 Down" ∧
    directionText 7 = "📉 Down" :=
  ⟨by with_unfolding_all rfl, rfl⟩

/-- C2 (amended): direction decoding maps code 1 to the "Up" label and
*every* other code — 0, but also any unrecognized code — to the "Down"
label; it is total and never raises. -/
theorem C2_direction_decoding (d : ℤ) :
    directionText d = (if d = 1 then "📈 Up" else "📉 Down") ∧
    (pipeline (mkModels 100 d 1) goodRaw).map Output.directionLabel =
      .ok (directionText d) :=
  ⟨rfl, rfl⟩

/-- C6: signal decoding maps 0/1/2 to the sell/hold/buy labels and every
other code to the explicit "Unknown" label; decoding never raises — any
code yields a successful run with that label. -/
theorem C6_signal_decoding :
    signalText 0 = "🔻 SELL" ∧ signalText 1 = "⏸ HOLD" ∧ signalText 2 = "🔺 BUY" ∧
    (∀ s : ℤ, s ≠ 0 → s ≠ 1 → s ≠ 2 → signalText s = "Unknown") ∧
    (∀ s : ℤ, (pipeline (mkModels 100 1 s) goodRaw).map Output.signalLabel =
        .ok (signalText s)) := by
  refine ⟨rfl, rfl, rfl, ?_, fun s => rfl⟩
  intro s h0 h1 h2
  have h0' : ((0 : ℤ) == s) = false := by simpa using Ne.symm h0
  have h1' : ((1 : ℤ) == s) = false := by simpa using Ne.symm h1
  have h2' : ((2 : ℤ) == s) = false := by simpa using Ne.symm h2
  simp [signalText, signalMap, List.find?_cons, h0', h1', h2']

/-- C6 witness: code 9 is none of 0/1/2 and decodes to "Unknown". -/
theorem C6_signal_decoding_witness :
    ((9 : ℤ) ≠ 0 ∧ (9 : ℤ) ≠ 1 ∧ (9 : ℤ) ≠ 2) ∧ signalText 9 = "Unknown" :=
  ⟨⟨by decide, by decide, by decide⟩,
   C6_signal_decoding.2.2.2.1 9 (by decide) (by decide) (by decide)⟩

/-- C5 counterexample: on an empty series the pipeline aborts at the
`df.empty` check of line 27 with the provider-error stop ("Couldn't fetch
data"), not with the insufficient-data stop the claim names. -/
theorem C5_counterexample :
    pipeline mdlOk emptyRaw = .error .providerError ∧
    pipeline mdlOk emptyRaw ≠ .error .insufficientData := by
  refine ⟨rfl, fun h => ?_⟩
  rw [show pipeline mdlOk emptyRaw = .error .providerError from rfl] at h
  injection h with h2
  exact PipelineError.noConfusion h2

/-- C5 (amended): an empty fetch aborts earlier with `ProviderError`; for
every *nonempty* input whose feature engineering succeeds and on which
zero rows remain after the required-field filter, the pipeline stops with
the classified `InsufficientDataError` and produces no prediction. -/
theorem C5_insufficient_data (m : Models) (raw : List (RawCol × List FVal)) (df : DF)
    (h0 : ¬ (rawNrows raw = 0))
    (hfe : featureEngineering (normalizeDF raw) = .ok df)
    (hall : ∀ c ∈ features, c ∈ colNames df)
    (hdrop : nrows (dropnaDF df features) = 0) :
    pipeline m raw = .error .insufficientData ∧
    PipelineError.insufficientData.isClassified = true ∧
    ∀ out : Output, pipeline m raw ≠ .ok out := by
  have hsel := selectLatest_insufficient df hall hdrop
  have hp := pipeline_err_of_select m raw df _ h0 hfe hsel
  exact ⟨hp, rfl, fun out hout => by rw [hp] at hout; exact Except.noConfusion hout⟩

/-- C5 witness: a 9-row series (shorter than the 10-row window) is nonempty
but loses every row to the filter and stops with `InsufficientDataError`. -/
theorem C5_insufficient_data_witness :
    ¬ (rawNrows shortRaw = 0) ∧ pipeline mdlOk shortRaw = .error .insufficientData :=
  ⟨by decide,
   (C5_insufficient_data mdlOk shortRaw _
      (by decide)
      (featureEngineering_canonDF (([0, 1, 2, 3, 4, 5, 6, 7, 8] : List ℚ).map .fin)
        (([1, 1, 1, 1, 1, 1, 1, 1, 1] : List ℚ).map .fin)
        (([2, 2, 2, 2, 2, 2, 2, 2, 2] : List ℚ).map .fin)
        (([1, 1, 1, 1, 1, 1, 1, 1, 1] : List ℚ).map .fin)
        (([1, 2, 3, 4, 5, 6, 7, 8, 9] : List ℚ).map .fin)
        (([1, 1, 1, 1, 1, 1, 1, 1, 1] : List ℚ).map .fin))
      (by decide) (by with_unfolding_all rfl)).1⟩

/-- C7 counterexample: a table lacking the `Close` column reaches line 39
(`df['Close'].rolling(...)`) before the missing-column check of line 54 and
dies with an *uncaught* `KeyError` — an unclassified failure, not the
claimed `SchemaError`. -/
theorem C7_counterexample :
    pipeline mdlOk noCloseRaw = .error (.keyError "Close") ∧
    (PipelineError.keyError "Close").isClassified = false ∧
    pipeline mdlOk noCloseRaw ≠ .error (.schemaError ["Close"]) := by
  refine ⟨by decide, rfl, fun h => ?_⟩
  rw [show pipeline mdlOk noCloseRaw = .error (.keyError "Close") from by decide] at h
  injection h with h2
  exact PipelineError.noConfusion h2

/-- C7 (amended): headers are normalized (tuple flattening, strip, title
case) before any arithmetic — a two-level, oddly-cased provider table runs
end to end; a table missing `Volume` (the only required column the
arithmetic itself never touches) is caught by the line-54 check as a
classified `SchemaError`; but a missing `Close`/`Open`/`High`/`Low`
surfaces as an uncaught `KeyError` instead (see the counterexample). -/
theorem C7_normalization_and_schema :
    normalizeName (.tup "Close" "^BSESN") = "Close" ∧
    normalizeName (.str "  cLoSe ") = "Close" ∧
    normalizeName (.str "VOLUME") = "Volume" ∧
    normalizeName (.str " daily_change_% ") = "Daily_Change_%" ∧
    pipeline mdlOk noVolRaw = .error (.schemaError ["Volume"]) ∧
    (PipelineError.schemaError ["Volume"]).isClassified = true ∧
    (pipeline mdlOk goodRawTup).map Output.predClose = .ok 100 := by
  exact ⟨by decide, by decide, by decide, by decide, by decide, rfl,
    by with_unfolding_all rfl⟩

/-- C3 counterexample: ten rows whose last row has `Open = 0`, `Close = 5`:
the division features evaluate to +infinity (not NaN), the row *passes*
`dropna` and is selected as the latest input — the run succeeds rather
than failing with `InsufficientDataError`. -/
theorem C3_counterexample :
    (pipeline mdlOk (zeroOpenRaw 5)).map Output.latestInput =
      .ok [.fin 0, .fin 2, .fin 1, .fin 1, .fin (9 / 5), .fin (7 / 5), .fin 1,
           .pinf, .sqrtFin (16 / 5), .pinf] ∧
    FVal.pinf.isNA = false ∧
    pipeline mdlOk (zeroOpenRaw 5) ≠ .error .insufficientData := by
  have hmap : (pipeline mdlOk (zeroOpenRaw 5)).map Output.latestInput =
      .ok [.fin 0, .fin 2, .fin 1, .fin 1, .fin (9 / 5), .fin (7 / 5), .fin 1,
           .pinf, .sqrtFin (16 / 5), .pinf] := by with_unfolding_all rfl
  refine ⟨hmap, rfl, fun h => ?_⟩
  rw [h] at hmap
  exact Except.noConfusion hmap

/-- C3 (amended): with `open == 0` the division features are never finite,
but they are ±infinity (not missing) whenever `close ≠ 0`: such a row
passes the required-field filter and can be selected as latest (see the
counterexample).  Only when `close == 0` as well do they become NaN, and
then the row is dropped — if it was the only candidate row the run stops
with `InsufficientDataError`. -/
theorem C3_zero_open_division (c : ℚ) (hc : 0 < c) :
    FVal.sub (.fin c) (.fin 0) = .fin c ∧
    FVal.div (.fin c) (.fin 0) = .pinf ∧
    FVal.mul (FVal.div (FVal.sub (.fin c) (.fin 0)) (.fin 0)) (.fin 100) = .pinf ∧
    FVal.div (.fin 0) (.fin 0) = .nan ∧
    FVal.pinf.isNA = false ∧ FVal.nan.isNA = true ∧
    pipeline mdlOk (zeroOpenRaw 0) = .error .insufficientData := by
  have h1 : FVal.sub (.fin c) (.fin 0) = .fin c := by simp [FVal.sub]
  have h2 : FVal.div (.fin c) (.fin 0) = .pinf := by simp [FVal.div, hc]
  refine ⟨h1, h2, ?_, by simp [FVal.div], rfl, rfl, by with_unfolding_all rfl⟩
  rw [h1, h2]
  show FVal.mul .pinf (.fin 100) = .pinf
  rw [FVal.mul]
  rw [if_pos (by norm_num)]

/-- C3 witness: instantiated at `close = 5 > 0`. -/
theorem C3_zero_open_division_witness :
    (0 : ℚ) < 5 ∧
    (FVal.div (.fin 5) (.fin 0) = .pinf ∧
     pipeline mdlOk (zeroOpenRaw 0) = .error .insufficientData) :=
  ⟨by norm_num, (C3_zero_open_division 5 (by norm_num)).2.1,
   (C3_zero_open_division 5 (by norm_num)).2.2.2.2.2.2⟩

/-- C8: every successful run builds one numeric vector of length exactly 10,
in the fixed field order `Open, High, Low, Volume, Sma_5, Sma_10,
Price_Range, Daily_Change_%, Rolling_Std_5, Close/Open`, from the selected
(latest) feature row, and the identical vector is the argument of all three
model calls, whose raw outputs become the run's three predictions. -/
theorem C8_feature_vector (m : Models) (raw : List (RawCol × List FVal)) (out : Output)
    (h : pipeline m raw = .ok out) :
    features = ["Open", "High", "Low", "Volume", "Sma_5", "Sma_10", "Price_Range",
                "Daily_Change_%", "Rolling_Std_5", "Close/Open"] ∧
    out.latestInput.length = 10 ∧
    (∃ df, featureEngineering (normalizeDF raw) = .ok df ∧
      out.latestInput = latestInputOf (dropnaDF df features)) ∧
    m.reg out.latestInput = .ok out.predClose ∧
    (∃ d, m.clf out.latestInput = .ok d ∧ out.directionLabel = directionText d) ∧
    (∃ s, m.sig out.latestInput = .ok s ∧ out.signalLabel = signalText s) := by
  obtain ⟨df, dt, p, hfe, hsel, hrun, hout⟩ := pipeline_ok_inv m raw out h
  obtain ⟨hv, hnz⟩ := selectLatest_ok_inv df _ _ hsel
  obtain ⟨hr, hc, hs⟩ := runModels_ok_inv m _ p hrun
  refine ⟨rfl, ?_, ⟨df, hfe, hv⟩, ?_, ⟨p.2.1, hc, ?_⟩, ⟨p.2.2, hs, ?_⟩⟩
  · rw [hv]; exact length_latestInputOf _
  · rw [show out.predClose = p.1 from by rw [hout]; rfl]
    exact hr
  · rw [hout]; rfl
  · rw [hout]; rfl

/-- C8 witness: the reference run succeeds and its vector has length 10. -/
theorem C8_feature_vector_witness :
    pipeline mdlOk goodRaw = .ok goodOut ∧ goodOut.latestInput.length = 10 :=
  ⟨by with_unfolding_all rfl,
   (C8_feature_vector mdlOk goodRaw goodOut (by with_unfolding_all rfl)).2.1⟩

/-- C9: once a row has been selected, if any of the three model calls
raises, the run stops with a classified `InferenceError` carrying that
model's exception text, and no `Output` is produced (no partial result);
conversely a successful run means all three calls succeeded on the same
vector. -/
theorem C9_inference_atomicity (m : Models) (raw : List (RawCol × List FVal)) (df : DF)
    (v : List FVal) (dt : FVal) (h0 : ¬ (rawNrows raw = 0))
    (hfe : featureEngineering (normalizeDF raw) = .ok df)
    (hsel : selectLatest df = .ok (v, dt)) :
    (∀ e, m.reg v = .error e →
        pipeline m raw = .error (.inferenceError e) ∧
        (PipelineError.inferenceError e).isClassified = true) ∧
    (∀ q e, m.reg v = .ok q → m.clf v = .error e →
        pipeline m raw = .error (.inferenceError e)) ∧
    (∀ q d e, m.reg v = .ok q → m.clf v = .ok d → m.sig v = .error e →
        pipeline m raw = .error (.inferenceError e)) ∧
    (∀ out : Output, pipeline m raw = .ok out →
        out.latestInput = v ∧ m.reg v = .ok out.predClose ∧
        (∃ d, m.clf v = .ok d) ∧ (∃ s, m.sig v = .ok s)) := by
  have hpeq := pipeline_eq_of_stages m raw df v dt h0 hfe hsel
  refine ⟨?_, ?_, ?_, ?_⟩
  · intro e he
    refine ⟨?_, rfl⟩
    rw [hpeq, runModels_err_reg m v e he]
    rfl
  · intro q e hq he
    rw [hpeq, runModels_err_clf m v q e hq he]
    rfl
  · intro q d e hq hd he
    rw [hpeq, runModels_err_sig m v q d e hq hd he]
    rfl
  · intro out hout
    rw [hpeq] at hout
    obtain ⟨p, hp, hpd⟩ := except_map_ok_inv _ _ _ hout
    obtain ⟨hr, hc, hs⟩ := runModels_ok_inv m v p hp
    refine ⟨by rw [hpd]; rfl, ?_, ⟨p.2.1, hc⟩, ⟨p.2.2, hs⟩⟩
    rw [show out.predClose = p.1 from by rw [hpd]; rfl]
    exact hr

/-- C9 witness: a regressor raising "boom" on the reference table aborts
the run with `InferenceError "boom"`. -/
theorem C9_inference_atomicity_witness :
    mdlFailReg.reg [] = .error "boom" ∧
    pipeline mdlFailReg goodRaw = .error (.inferenceError "boom") :=
  ⟨rfl,
   ((C9_inference_atomicity mdlFailReg goodRaw _ _ _ (by decide)
      (by with_unfolding_all rfl) (by with_unfolding_all rfl)).1 "boom" rfl).1⟩

theorem getD_map_last (f : ℕ → FVal) (l : List ℕ) (hl : l.length ≠ 0) :
    (l.map f).getD (l.length - 1) .nan = f (l.getD (l.length - 1) 0) := by
  have hpos : 0 < l.length := Nat.pos_of_ne_zero hl
  rw [List.getD_eq_getElem _ _ (by simp; omega), List.getD_eq_getElem _ _ (by omega)]
  simp

theorem rowHasNA_iff (df : DF) (i : ℕ)
    (hall : ∀ c ∈ features, c ∈ colNames df) :
    rowHasNA df features i = true ↔ ∃ nm ∈ features, (cellAt df nm i).isNA = true := by
  rw [rowHasNA, List.any_eq_true]
  constructor
  · rintro ⟨nm, hnm, hp⟩
    refine ⟨nm, hnm, ?_⟩
    obtain ⟨col, hcol⟩ := getCol_some_of_mem df nm (hall nm hnm)
    rw [hcol] at hp
    simpa [cellAt, hcol] using hp
  · rintro ⟨nm, hnm, hp⟩
    refine ⟨nm, hnm, ?_⟩
    obtain ⟨col, hcol⟩ := getCol_some_of_mem df nm (hall nm hnm)
    rw [hcol]
    simpa [cellAt, hcol] using hp

/-- C4: row selection first removes exactly the rows carrying a missing
value in some required (feature) field, and — provided the dates are
strictly increasing and at least one row survives — returns the surviving
row with the maximum date, as the pair (feature vector of that row in the
fixed order, its date). -/
theorem C4_select_latest (df : DF) (dq : List ℚ)
    (hds : getCol df "Date" = some (dq.map FVal.fin))
    (hdlen : dq.length = nrows df)
    (hmono : List.Pairwise (· < ·) dq)
    (hall : ∀ c ∈ features, c ∈ colNames df)
    (hne : keptIdx df features ≠ []) :
    ∃ k, k ∈ keptIdx df features ∧
      selectLatest df =
        .ok (features.map (fun nm => cellAt df nm k), .fin (dq.getD k 0)) ∧
      (∀ i ∈ keptIdx df features, dq.getD i 0 ≤ dq.getD k 0) ∧
      (∀ i, i < nrows df →
        ((i ∈ keptIdx df features) ↔ ∀ nm ∈ features, (cellAt df nm i).isNA = false)) := by
  have hdf : df ≠ [] := by
    intro hnil
    subst hnil
    have := hall "Open" (by simp [features])
    simp [colNames] at this
  have hlen0 : (keptIdx df features).length ≠ 0 :=
    fun h => hne (List.length_eq_zero.1 h)
  set k : ℕ := (keptIdx df features).getD ((keptIdx df features).length - 1) 0 with hkdef
  have hkmem : k ∈ keptIdx df features := getD_last_mem _ hlen0
  have hklt : k < nrows df := ((mem_keptIdx_iff df features k).1 hkmem).1
  have hkq : k < dq.length := by omega
  have hnz : nrows (dropnaDF df features) ≠ 0 := by
    rw [nrows_dropna df features hdf]; exact hlen0
  have hnr : nrows (dropnaDF df features) = (keptIdx df features).length :=
    nrows_dropna df features hdf
  have hds2 : getCol (dropnaDF df features) "Date" =
      some ((keptIdx df features).map (fun i => (dq.map FVal.fin).getD i .nan)) := by
    rw [getCol_dropna, hds]
    rfl
  have hsel := selectLatest_ok_eq df hall hnz _ hds2
  refine ⟨k, hkmem, ?_, ?_, ?_⟩
  · rw [hsel]
    have hvec : latestInputOf (dropnaDF df features) =
        features.map (fun nm => cellAt df nm k) := by
      rw [latestInputOf]
      refine List.map_congr_left ?_
      intro nm hnm
      obtain ⟨col, hcol⟩ := getCol_some_of_mem df nm (hall nm hnm)
      have hcol2 : getCol (dropnaDF df features) nm =
          some ((keptIdx df features).map (fun i => col.getD i .nan)) := by
        rw [getCol_dropna, hcol]
        rfl
      rw [cellAt, hcol2, cellAt, hcol]
      simp only [Option.getD_some]
      rw [hnr, getD_map_last _ _ hlen0]
    have hdt : ((keptIdx df features).map (fun i => (dq.map FVal.fin).getD i .nan)).getD
          (nrows (dropnaDF df features) - 1) .nan = .fin (dq.getD k 0) := by
      rw [hnr, getD_map_last _ _ hlen0, getD_map_fin _ _ (by omega)]
    rw [hvec, hdt]
  · intro i hi
    have hile : i ≤ k :=
      le_last_of_pairwise_lt _ (keptIdx_pairwise df features) hlen0 i hi
    have hilt : i < nrows df := ((mem_keptIdx_iff df features i).1 hi).1
    have hiq : i < dq.length := by omega
    rcases Nat.lt_or_ge i k with hlt | hge
    · rw [List.getD_eq_getElem dq 0 hiq, List.getD_eq_getElem dq 0 hkq]
      exact le_of_lt (List.pairwise_iff_getElem.1 hmono i k hiq hkq hlt)
    · have hik : i = k := by omega
      rw [hik]
  · intro i hilt
    rw [mem_keptIdx_iff]
    constructor
    · rintro ⟨-, hna⟩ nm hnm
      by_contra hcell
      have hcell2 : (cellAt df nm i).isNA = true := by
        cases hval : (cellAt df nm i).isNA
        · exact absurd hval hcell
        · rfl
      have hrow : rowHasNA df features i = true :=
        (rowHasNA_iff df i hall).2 ⟨nm, hnm, hcell2⟩
      rw [hrow] at hna
      exact Bool.noConfusion hna
    · intro hcells
      refine ⟨hilt, ?_⟩
      cases hval : rowHasNA df features i
      · rfl
      · obtain ⟨nm, hnm, hcell⟩ := (rowHasNA_iff df i hall).1 hval
        rw [hcells nm hnm] at hcell
        exact Bool.noConfusion hcell

/-- C4 witness: on `c4DF` (three rows, last row missing `Sma_10`) the kept
rows are 0 and 1 and selection returns the maximum-date surviving row. -/
theorem C4_select_latest_witness :
    keptIdx c4DF features ≠ [] ∧
    (∃ k, k ∈ keptIdx c4DF features ∧
      selectLatest c4DF =
        .ok (features.map (fun nm => cellAt c4DF nm k),
             .fin (([0, 1, 2] : List ℚ).getD k 0)) ∧
      (∀ i ∈ keptIdx c4DF features,
        ([0, 1, 2] : List ℚ).getD i 0 ≤ ([0, 1, 2] : List ℚ).getD k 0)) ∧
    keptIdx c4DF features = [0, 1] := by
  refine ⟨by decide, ?_, by decide⟩
  obtain ⟨k, h1, h2, h3, h4⟩ := C4_select_latest c4DF [0, 1, 2] rfl (by decide)
    (by norm_num) (by decide) (by decide)
  exact ⟨k, h1, h2, h3⟩

theorem FVal.div_fin_of_ne (a b : ℚ) (hb : b ≠ 0) :
    FVal.div (.fin a) (.fin b) = .fin (a / b) := by
  simp [FVal.div, hb]

theorem getD_dailyChangeCol (cq oq : List ℚ) (i : ℕ)
    (hc : i < cq.length) (ho : i < oq.length) (hne : oq.getD i 0 ≠ 0) :
    (dailyChangeCol (cq.map .fin) (oq.map .fin)).getD i .nan =
      .fin ((cq.getD i 0 - oq.getD i 0) / oq.getD i 0 * 100) := by
  rw [List.getD_eq_getElem oq 0 ho] at hne
  rw [List.getD_eq_getElem cq 0 hc, List.getD_eq_getElem oq 0 ho]
  rw [dailyChangeCol,
    List.getD_eq_getElem ((List.zipWith FVal.div
        (List.zipWith FVal.sub (cq.map .fin) (oq.map .fin)) (oq.map .fin)).map
        (fun v => FVal.mul v (.fin 100))) .nan (by simp; omega)]
  simp only [List.getElem_map, List.getElem_zipWith]
  rw [show FVal.sub (.fin cq[i]) (.fin oq[i]) = .fin (cq[i] - oq[i]) from rfl,
    FVal.div_fin_of_ne _ _ hne]
  rfl

theorem range'_getD_last (s l : ℕ) (hl : l ≠ 0) :
    (List.range' s l).getD ((List.range' s l).length - 1) 0 = s + (l - 1) := by
  rw [List.getD_eq_getElem _ _ (by simp [List.length_range']; omega)]
  rw [List.getElem_range']
  simp only [List.length_range', one_mul]

theorem feDFQ_colNames (dq oq hq lq cq vq : List ℚ) :
    colNames (feDFQ dq oq hq lq cq vq) =
      ["Date", "Open", "High", "Low", "Close", "Volume", "Sma_5", "Sma_10",
       "Price_Range", "Daily_Change_%", "Rolling_Std_5", "Close/Open"] := rfl

theorem feDFQ_hall (dq oq hq lq cq vq : List ℚ) :
    ∀ c ∈ features, c ∈ colNames (feDFQ dq oq hq lq cq vq) := by
  intro c hc
  rw [feDFQ_colNames]
  simp only [features, List.mem_cons, List.not_mem_nil, or_false] at hc
  rcases hc with h | h | h | h | h | h | h | h | h | h <;> subst h <;> simp

theorem feDFQ_cells_defined (dq oq hq lq cq vq : List ℚ) (n : ℕ)
    (_hd : dq.length = n) (ho : oq.length = n) (hh : hq.length = n)
    (hl : lq.length = n) (hc : cq.length = n) (hv : vq.length = n)
    (hopen : ∀ x ∈ oq, x ≠ 0) (i : ℕ) (hin : i < n) (h9 : 9 ≤ i) :
    ∀ nm ∈ features, (cellAt (feDFQ dq oq hq lq cq vq) nm i).isNA = false := by
  have hone : oq.getD i 0 ≠ 0 := by
    refine hopen _ ?_
    rw [List.getD_eq_getElem oq 0 (by omega)]
    exact List.getElem_mem _
  intro nm hnm
  simp only [features, List.mem_cons, List.not_mem_nil, or_false] at hnm
  rcases hnm with h | h | h | h | h | h | h | h | h | h
  · subst h
    rw [show cellAt (feDFQ dq oq hq lq cq vq) "Open" i = (oq.map FVal.fin).getD i .nan
        from rfl, getD_map_fin oq i (by omega)]
    rfl
  · subst h
    rw [show cellAt (feDFQ dq oq hq lq cq vq) "High" i = (hq.map FVal.fin).getD i .nan
        from rfl, getD_map_fin hq i (by omega)]
    rfl
  · subst h
    rw [show cellAt (feDFQ dq oq hq lq cq vq) "Low" i = (lq.map FVal.fin).getD i .nan
        from rfl, getD_map_fin lq i (by omega)]
    rfl
  · subst h
    rw [show cellAt (feDFQ dq oq hq lq cq vq) "Volume" i = (vq.map FVal.fin).getD i .nan
        from rfl, getD_map_fin vq i (by omega)]
    rfl
  · subst h
    rw [show cellAt (feDFQ dq oq hq lq cq vq) "Sma_5" i =
        (rollingMean 5 (cq.map .fin)).getD i .nan from rfl,
      getD_rollingMean _ _ _ (by simp; omega),
      rollingMeanAt_map_fin 5 (by omega) cq i (by omega) (by omega)]
    rfl
  · subst h
    rw [show cellAt (feDFQ dq oq hq lq cq vq) "Sma_10" i =
        (rollingMean 10 (cq.map .fin)).getD i .nan from rfl,
      getD_rollingMean _ _ _ (by simp; omega),
      rollingMeanAt_map_fin 10 (by omega) cq i (by omega) (by omega)]
    rfl
  · subst h
    rw [show cellAt (feDFQ dq oq hq lq cq vq) "Price_Range" i =
        (List.zipWith FVal.sub (hq.map .fin) (lq.map .fin)).getD i .nan from rfl,
      getD_zipWith_map_fin FVal.sub hq lq i (by omega) (by omega)]
    rfl
  · subst h
    rw [show cellAt (feDFQ dq oq hq lq cq vq) "Daily_Change_%" i =
        (dailyChangeCol (cq.map .fin) (oq.map .fin)).getD i .nan from rfl,
      getD_dailyChangeCol cq oq i (by omega) (by omega) hone]
    rfl
  · subst h
    rw [show cellAt (feDFQ dq oq hq lq cq vq) "Rolling_Std_5" i =
        (rollingStd 5 (cq.map .fin)).getD i .nan from rfl,
      getD_rollingStd _ _ _ (by simp; omega),
      rollingStdAt_map_fin 5 cq i (by omega)]
    rfl
  · subst h
    rw [show cellAt (feDFQ dq oq hq lq cq vq) "Close/Open" i =
        (List.zipWith FVal.div (cq.map .fin) (oq.map .fin)).getD i .nan from rfl,
      getD_zipWith_map_fin FVal.div cq oq i (by omega) (by omega),
      FVal.div_fin_of_ne _ _ hone]
    rfl

/-- C10: for a complete all-finite series of `n ≥ 10` rows with nonzero
opens, the feature engine succeeds; a row is filtered out exactly when its
position is `< 9` (the `Sma_10` window not yet full), so `n - 9` rows
remain and selection returns exactly the final row of the input series
(its feature vector in the fixed order and its date). -/
theorem C10_full_series (dq oq hq lq cq vq : List ℚ) (n : ℕ)
    (hn : 10 ≤ n) (hd : dq.length = n) (ho : oq.length = n) (hh : hq.length = n)
    (hl : lq.length = n) (hc : cq.length = n) (hv : vq.length = n)
    (hopen : ∀ x ∈ oq, x ≠ 0) :
    featureEngineering (normalizeDF (mkRawQ dq oq hq lq cq vq)) =
      .ok (feDFQ dq oq hq lq cq vq) ∧
    (∀ i, i < n → (rowHasNA (feDFQ dq oq hq lq cq vq) features i = true ↔ i < 9)) ∧
    keptIdx (feDFQ dq oq hq lq cq vq) features = List.range' 9 (n - 9) ∧
    nrows (dropnaDF (feDFQ dq oq hq lq cq vq) features) = n - 9 ∧
    selectLatest (feDFQ dq oq hq lq cq vq) =
      .ok (features.map (fun nm => cellAt (feDFQ dq oq hq lq cq vq) nm (n - 1)),
           .fin (dq.getD (n - 1) 0)) := by
  have hall := feDFQ_hall dq oq hq lq cq vq
  have hnrows : nrows (feDFQ dq oq hq lq cq vq) = n := by
    simp [feDFQ, feDF, nrows, hd]
  have hiff : ∀ i, i < n →
      (rowHasNA (feDFQ dq oq hq lq cq vq) features i = true ↔ i < 9) := by
    intro i hin
    constructor
    · intro htrue
      by_contra h9
      push_neg at h9
      obtain ⟨nm, hnm, hcell⟩ := (rowHasNA_iff _ i hall).1 htrue
      rw [feDFQ_cells_defined dq oq hq lq cq vq n hd ho hh hl hc hv hopen i hin h9
        nm hnm] at hcell
      exact Bool.noConfusion hcell
    · intro h9
      refine (rowHasNA_iff _ i hall).2 ⟨"Sma_10", by simp [features], ?_⟩
      rw [show cellAt (feDFQ dq oq hq lq cq vq) "Sma_10" i =
          (rollingMean 10 (cq.map .fin)).getD i .nan from rfl,
        getD_rollingMean _ _ _ (by simp; omega), rollingMeanAt_lt _ _ _ (by omega)]
      rfl
  have hkept : keptIdx (feDFQ dq oq hq lq cq vq) features = List.range' 9 (n - 9) := by
    rw [keptIdx, hnrows, ← filter_range_ge 9 n]
    refine List.filter_congr ?_
    intro i hi
    rw [List.mem_range] at hi
    cases hval : rowHasNA (feDFQ dq oq hq lq cq vq) features i
    · have h9 : ¬ i < 9 := fun hl9 => by
        rw [(hiff i hi).2 hl9] at hval
        exact Bool.noConfusion hval
      simp only [Bool.not_false]
      symm
      simpa using by omega
    · have h9 : i < 9 := (hiff i hi).1 hval
      simp only [Bool.not_true]
      symm
      simpa using by omega
  have hne : (feDFQ dq oq hq lq cq vq) ≠ [] := by simp [feDFQ, feDF]
  have hnr : nrows (dropnaDF (feDFQ dq oq hq lq cq vq) features) = n - 9 := by
    rw [nrows_dropna _ _ hne, hkept, List.length_range']
  have hnz : nrows (dropnaDF (feDFQ dq oq hq lq cq vq) features) ≠ 0 := by omega
  have hl9 : (List.range' 9 (n - 9)).length ≠ 0 := by
    simp [List.length_range']
    omega
  have hds2 : getCol (dropnaDF (feDFQ dq oq hq lq cq vq) features) "Date" =
      some ((List.range' 9 (n - 9)).map (fun i => (dq.map FVal.fin).getD i .nan)) := by
    rw [getCol_dropna,
      show getCol (feDFQ dq oq hq lq cq vq) "Date" = some (dq.map .fin) from rfl, hkept]
    rfl
  have hsel := selectLatest_ok_eq _ hall hnz _ hds2
  refine ⟨?_, hiff, hkept, hnr, ?_⟩
  · rw [normalizeDF_mkRawQ]
    exact featureEngineering_canonDF _ _ _ _ _ _
  · rw [hsel]
    have hidx : (List.range' 9 (n - 9)).getD ((List.range' 9 (n - 9)).length - 1) 0 =
        n - 1 := by
      rw [range'_getD_last 9 (n - 9) (by omega)]
      omega
    have hvec : latestInputOf (dropnaDF (feDFQ dq oq hq lq cq vq) features) =
        features.map (fun nm => cellAt (feDFQ dq oq hq lq cq vq) nm (n - 1)) := by
      rw [latestInputOf]
      refine List.map_congr_left ?_
      intro nm hnm
      obtain ⟨col, hcol⟩ := getCol_some_of_mem _ nm (hall nm hnm)
      have hcol2 : getCol (dropnaDF (feDFQ dq oq hq lq cq vq) features) nm =
          some ((List.range' 9 (n - 9)).map (fun i => col.getD i .nan)) := by
        rw [getCol_dropna, hcol, hkept]
        rfl
      rw [cellAt, hcol2, cellAt, hcol]
      simp only [Option.getD_some]
      rw [hnr,
        show n - 9 - 1 = (List.range' 9 (n - 9)).length - 1 from by
          simp [List.length_range'],
        getD_map_last _ _ hl9, hidx]
    have hdt : ((List.range' 9 (n - 9)).map
          (fun i => (dq.map FVal.fin).getD i .nan)).getD
          (nrows (dropnaDF (feDFQ dq oq hq lq cq vq) features) - 1) .nan =
        .fin (dq.getD (n - 1) 0) := by
      rw [hnr,
        show n - 9 - 1 = (List.range' 9 (n - 9)).length - 1 from by
          simp [List.length_range'],
        getD_map_last _ _ hl9, hidx, getD_map_fin dq (n - 1) (by omega)]
    rw [hvec, hdt]

/-- C10 witness: on the 10-row reference data the kept rows are exactly
`[9]` (rows 0-8 lack a full 10-row window) and selection picks row 9. -/
theorem C10_full_series_witness :
    (10 ≤ 10 ∧ ∀ x ∈ List.replicate 10 (1 : ℚ), x ≠ 0) ∧
    keptIdx (feDFQ [0, 1, 2, 3, 4, 5, 6, 7, 8, 9] (List.replicate 10 1)
        (List.replicate 10 2) (List.replicate 10 1)
        [1, 2, 3, 4, 5, 6, 7, 8, 9, 10] (List.replicate 10 1)) features =
      List.range' 9 (10 - 9) ∧
    List.range' 9 (10 - 9) = [9] := by
  refine ⟨⟨by omega, fun x hx => by rw [List.eq_of_mem_replicate hx]; norm_num⟩, ?_,
    by decide⟩
  exact (C10_full_series [0, 1, 2, 3, 4, 5, 6, 7, 8, 9] (List.replicate 10 1)
    (List.replicate 10 2) (List.replicate 10 1) [1, 2, 3, 4, 5, 6, 7, 8, 9, 10]
    (List.replicate 10 1) 10 (by omega) rfl rfl rfl rfl rfl rfl
    (fun x hx => by rw [List.eq_of_mem_replicate hx]; norm_num)).2.2.1
